import Mathlib

/-!
Verification of the conststr library (fixed-capacity compile-time strings and
aggregate reflection) against its natural-language specification.

Modelling conventions, used throughout:

* The element type is the `char_like` instantiation `T = char`. Characters are
  modelled by their integer code (`Int`); the zero terminator `T('\0')` is `0`.
  Relevant codes: `'0'..'9'` = 48..57, `'A'..'Z'` = 65..90, `'_'` = 95,
  `'a'..'z'` = 97..122, `'\x20'` = 32.
* A `cstr<N, char>` value is modelled by the list of its `N` in-range
  characters (`List Int`).  The underlying `N+1`-element storage (the in-range
  characters plus the terminator) is modelled separately, for the storage
  invariant, by a `List Int` of length `N+1`.
* A C++ loop `for (i = a; i < b; ++i) ret[i] = f(i);` is modelled by
  `setRange ret a b f`, which performs the same sequence of element writes.
* `size_type` (`std::size_t`) arithmetic that can wrap is made explicit with
  `sizeT`, reduction modulo `2^64`; everywhere else positions are plain `Nat`
  and the source arithmetic cannot wrap.
* A `requires(...)` clause on a template (a compile-time rejection) is
  modelled by `Option`: `none` means the instantiation fails to compile.
-/

namespace Conststr

/-- The zero terminator `T('\0')`, i.e. character code 0. -/
def nul : Int := 0

/-! ### charutils (src/include/conststr.hpp) -/

/-- charutils::islower: `ch >= T('a') && ch <= T('z')`. -/
def islower (ch : Int) : Bool := 97 ≤ ch && ch ≤ 122

/-- charutils::issuper: `ch >= T('A') && ch <= T('Z')`. -/
def issuper (ch : Int) : Bool := 65 ≤ ch && ch ≤ 90

/-- charutils::isdigit: `ch >= T('0') && ch <= T('9')`. -/
def isdigit (ch : Int) : Bool := 48 ≤ ch && ch ≤ 57

/-- charutils::isalpha: `islower(ch) || issuper(ch)`. -/
def isalpha (ch : Int) : Bool := islower ch || issuper ch

/-- charutils::isalnum: `isalpha(ch) || isdigit(ch)`. -/
def isalnum (ch : Int) : Bool := isalpha ch || isdigit ch

/-- charutils::toupper: `ch >= T('a') && ch <= T('z') ? ch - T('\x20') : ch`. -/
def toupper (ch : Int) : Int := if 97 ≤ ch ∧ ch ≤ 122 then ch - 32 else ch

/-- charutils::tolower: `ch >= T('A') && ch <= T('Z') ? ch + T('\x20') : ch`. -/
def tolower (ch : Int) : Int := if 65 ≤ ch ∧ ch ≤ 90 then ch + 32 else ch

/-- charutils::replace<Chs...>: `is<Chs...>(ch) ? last_v<Chs...> : ch`, the
template pack `Chs...` modelled as a list (required non-empty in the source;
`is` tests membership in the whole pack, `last_v` is the last pack element). -/
def creplace (chs : List Int) (ch : Int) : Int :=
  if chs.any (fun c => c == ch) then chs.getLastD nul else ch

/-! ### Write loops

`setRange r i stop f` performs the writes `r[i] = f i, ..., r[stop-1] = f (stop-1)`
in order, exactly as the source loops do; `setRangeAux` counts the remaining
iterations so that the recursion is structural. -/

def setRangeAux : Nat → List Int → Nat → (Nat → Int) → List Int
  | 0, r, _, _ => r
  | k + 1, r, i, f => setRangeAux k (r.set i (f i)) (i + 1) f

/-- Model of the loop `for (j = i; j < stop; ++j) r[j] = f(j);`. -/
def setRange (r : List Int) (i stop : Nat) (f : Nat → Int) : List Int :=
  setRangeAux (stop - i) r i f

/-! ### cstr operations, on the `N` in-range characters
(src/include/conststr.hpp unless noted otherwise). -/

/-- The sentinel `npos`, which the source defines as `N`, the size. -/
def npos (s : List Int) : Nat := s.length

/-- `std::size_t` value of a signed arithmetic result: reduction mod `2^64`. -/
def sizeT (z : Int) : Nat := (z % (2 ^ 64 : Int)).toNat

/-- cstr::substr<Start, Len> body (line 1138): the returned string has
`size = min(Start + Len, N) - Start` characters, `ret[i] = _str[Start + i]`. -/
def substrUnchecked (s : List Int) (start len : Nat) : List Int :=
  setRange (List.replicate (min (start + len) s.length - start) nul) 0
    (min (start + len) s.length - start) (fun i => s.getD (start + i) nul)

/-- cstr::substr<Start, Len>: the template carries `requires(N >= Start)`, so
an instantiation with `Start > N` fails to compile (`none`). -/
def substr (s : List Int) (start len : Nat) : Option (List Int) :=
  if s.length ≥ start then some (substrUnchecked s start len) else none

/-- cstr::cut<Len>: `substr<0, Len>()` (the `requires` clause holds trivially). -/
def cut (s : List Int) (len : Nat) : List Int := substrUnchecked s 0 len

/-- cstr::pop: `cut<N - 1>()`. -/
def pop (s : List Int) : List Int := cut s (s.length - 1)

/-- cstr::erase(pos) (line 1489): `if (pos >= N) return pop();` else copy
`[0, pos)` and then `[pos, N-1)` shifted down by one. -/
def eraseAt (s : List Int) (pos : Nat) : List Int :=
  if pos ≥ s.length then pop s
  else
    setRange
      (setRange (List.replicate (s.length - 1) nul) 0 pos (fun i => s.getD i nul))
      pos (s.length - 1) (fun i => s.getD (i + 1) nul)

/-- cstr::insert(pos, ch) with `Count` copies (line 1188): `if (pos > N) pos = N;`
(the clamp is written `min pos N` here), `if constexpr (Count == 0) return *this;`,
then three copy loops into a default-constructed result of length `N + Count`. -/
def insertCh (s : List Int) (pos : Nat) (ch : Int) (count : Nat) : List Int :=
  if count = 0 then s
  else
    setRange
      (setRange
        (setRange (List.replicate (s.length + count) nul) 0 (min pos s.length)
          (fun i => s.getD i nul))
        (min pos s.length) (min pos s.length + count) (fun _ => ch))
      (min pos s.length + count) (s.length + count)
      (fun i => s.getD (i - count) nul)

/-- cstr::replace(pos, str, count) (line 1404): `if (pos > N) pos = N;`
`ret = *this;` `end = min(pos + count * str.size(), N);`
`for (i = 0; i < end - pos; ++i) ret[i] = str[i % str.size()];`
(note: the loop writes `ret[i]`, starting at index 0, not at `pos`). -/
def replaceView (s : List Int) (pos : Nat) (str : List Int) (count : Nat) :
    List Int :=
  setRange s 0 (min (min pos s.length + count * str.length) s.length - min pos s.length)
    (fun i => str.getD (i % str.length) nul)

/-- Modelled from the claim and from the doc comment of cstr::replace: the
characters in the range `[pos, min(pos + count * str.size(), N))` become the
cyclic repetition of `str` starting at `pos`; every other character of the
result equals the corresponding character of `s`. -/
def replaceViewSpec (s : List Int) (pos : Nat) (str : List Int) (count : Nat) :
    List Int :=
  (List.range s.length).map fun i =>
    if pos ≤ i ∧ i < min (pos + count * str.length) s.length
    then str.getD ((i - pos) % str.length) nul else s.getD i nul

/-- cstr::transform(op, pos, len) (line 1557): `if (pos > N) pos = N;`
(written `min pos N` here); the result `ret` is default-constructed (all
in-range characters are `nul`), and `std::transform` writes
`ret[i] = op(_str[i])` exactly for `i` in `[pos, min(pos + len, N))`. -/
def transform (s : List Int) (op : Int → Int) (pos len : Nat) : List Int :=
  setRange (List.replicate s.length nul) (min pos s.length)
    (min (min pos s.length + len) s.length) (fun i => op (s.getD i nul))

/-- cstr::replace<Chs...>(pos, len) (line 1447):
`transform(charutils::replace<Chs...>, pos, len)`. -/
def replacePack (s : List Int) (chs : List Int) (pos len : Nat) : List Int :=
  transform s (creplace chs) pos len

/-- cstr::uppercase (line 1643): `transform(charutils::toupper<value_type>)`,
with the default arguments `pos = 0`, `len = N`. -/
def uppercase (s : List Int) : List Int := transform s toupper 0 s.length

/-- cstr::lowercase (line 1656): `transform(charutils::tolower<value_type>)`,
with the default arguments `pos = 0`, `len = N`. -/
def lowercase (s : List Int) : List Int := transform s tolower 0 s.length

/-- cstr::find(ch, pos) (line 1667): `if (pos >= npos) return npos;` then
`to_pos(std::find(cbegin() + pos, cend(), ch))`; `List.findIdx` returns the
length of the scanned range when there is no match, exactly like `std::find`
returning the end iterator. -/
def findCh (s : List Int) (ch : Int) (pos : Nat) : Nat :=
  if pos ≥ s.length then s.length
  else pos + (s.drop pos).findIdx (fun c => c == ch)

/-- cstr::rfind(ch, pos) (line 1692, the current include/conststr.hpp version):
the scan starts at `crbegin()` when `pos >= npos`, else at
`const_reverse_iterator(cbegin() + pos)`, so it covers the first
`scanned = min(pos, N)` characters (which are `s.take pos`) in reverse;
`iter == crend()` (no match, i.e. `findIdx` returns the length of the scanned
range) yields `npos`, and a match at reverse offset `k` yields the index
`scanned - 1 - k` (this is `to_pos(iter.base() - 1)`). -/
def rfindCh (s : List Int) (ch : Int) (pos : Nat) : Nat :=
  if ((s.take pos).reverse).findIdx (fun c => c == ch) =
      ((s.take pos).reverse).length
  then s.length
  else min pos s.length - 1 - ((s.take pos).reverse).findIdx (fun c => c == ch)

/-- cstr::rfind(ch, pos) of the older root src/conststr.hpp (line 1469): the
same reverse scan over the first `scanned = min(pos, N)` characters, but the
return value is `iter.base() - cbegin() - 1` with no `crend()` check: a match
at reverse offset `k` gives `scanned - k - 1`; when there is no match
`iter.base() == cbegin()` (`k = scanned`) and the `size_type` result
underflows to `2^64 - 1`. -/
def rfindChOld (s : List Int) (ch : Int) (pos : Nat) : Nat :=
  sizeT ((min pos s.length : Int) -
    (((s.take pos).reverse).findIdx (fun c => c == ch) : Int) - 1)

/-- cstr::rfind_if(p, pos) (line 1735, include/conststr.hpp): same structure
as `rfindCh` with a unary predicate. -/
def rfind_if (s : List Int) (p : Int → Bool) (pos : Nat) : Nat :=
  if ((s.take pos).reverse).findIdx p = ((s.take pos).reverse).length
  then s.length
  else min pos s.length - 1 - ((s.take pos).reverse).findIdx p

/-- cstr::starts_with(str) (line 1763), first branch: the view type has its
own `starts_with` (the default `std::basic_string_view` does), which the
standard defines as `substr(0, str.size()) == str`: true iff
`str.size() <= size()` and the first `str.size()` characters equal `str`. -/
def starts_with_sv (s pre : List Int) : Bool :=
  decide (pre.length ≤ s.length) && (s.take pre.length == pre)

/-- cstr::starts_with(str) (line 1766), remaining branches, used for view
types without a native `starts_with`:
`size() > str.size() && std::equal(str.begin(), str.end(), begin())`
(the comparison of sizes is strict). -/
def starts_with_gen (s pre : List Int) : Bool :=
  decide (pre.length < s.length) && (s.take pre.length == pre)

/-- cstr::ends_with(str) (line 1792), first branch: the view type has its own
`ends_with`, defined by the standard as true iff `str.size() <= size()` and
the last `str.size()` characters equal `str`. -/
def ends_with_sv (s suf : List Int) : Bool :=
  decide (suf.length ≤ s.length) && (s.drop (s.length - suf.length) == suf)

/-- cstr::ends_with(str) (line 1795), remaining branches:
`size() > str.size() && std::equal(str.begin(), str.end(), end() - str.size())`
(again a strict size comparison). -/
def ends_with_gen (s suf : List Int) : Bool :=
  decide (suf.length < s.length) && (s.drop (s.length - suf.length) == suf)

/-! ### reflect::basename_of (src/reflect.hpp, line 1796) -/

/-- The local predicate of basename_of_impl:
`charutils::isalnum(ch) || ch == '_'`. -/
def isident (ch : Int) : Bool := isalnum ch || ch == 95

/-- reflect::basename_of_impl<Name>:
`end = Name.rfind_if(isident) + 1;` (default start `npos`),
`begin = Name.rfind_if(not_fn(isident), end) + 1;`,
`return Name.substr<begin, end - begin>();` — the final `substr` carries the
`requires(N >= Start)` clause, so `none` models a failed compilation. -/
def basenameOf (name : List Int) : Option (List Int) :=
  substr name (rfind_if name (fun ch => !(isident ch)) (rfind_if name isident name.length + 1) + 1)
    ((rfind_if name isident name.length + 1) -
      (rfind_if name (fun ch => !(isident ch)) (rfind_if name isident name.length + 1) + 1))

/-! ### The storage invariant (claim C9)

Here a `cstr<N, char>` is modelled by its full `N+1`-element storage `_str`
(src/include/conststr.hpp line 1829). -/

/-- The storage invariant: `N+1` stored elements and the last is the zero
terminator. -/
def inv (n : Nat) (s : List Int) : Prop := s.length = n + 1 ∧ s.getD n nul = nul

/-- Default constructor (line 692): `_str{nul}` sets element 0 to `nul` and
value-initialises the rest, so every element of the storage is `nul`. -/
def mkDefault (n : Nat) : List Int := List.replicate (n + 1) nul

/-- Constructor from a literal `const value_type (&str)[N + 1]` (line 708):
`for (i = 0; i < N; ++i) _str[i] = str[i]; _str[N] = nul;`. -/
def mkLiteral (n : Nat) (str : List Int) : List Int := str.take n ++ [nul]

/-- cstr::fill(ch) (line 769): `std::fill_n(begin(), size(), ch)` writes the
`N` in-range elements, then `_str[N] = nul;`. -/
def fillStorage (s : List Int) (ch : Int) : List Int :=
  (setRange s 0 (s.length - 1) (fun _ => ch)).set (s.length - 1) nul

/-- Constructor from a fill character (line 721): delegates to `fill(ch)`,
which writes every element of the storage. -/
def mkFillCh (n : Nat) (ch : Int) : List Int :=
  fillStorage (List.replicate (n + 1) nul) ch

/-- Constructor from a character pack (line 733): `_str{vs..., nul}`. -/
def mkPack (vs : List Int) : List Int := vs ++ [nul]

/-- Copy constructor (line 739): defaulted, the storage is copied unchanged. -/
def mkCopy (s : List Int) : List Int := s

/-- Constructor from a string with another view type (line 744):
`std::copy_n(other.begin(), size(), begin()); _str[N] = nul;`. -/
def mkReview (n : Nat) (s : List Int) : List Int := s.take n ++ [nul]

/-- cstr::swap (line 779): `std::swap_ranges(begin(), end(), other.begin())`
exchanges the `N` in-range elements; this is what `a` becomes. -/
def swapFst (n : Nat) (a b : List Int) : List Int := b.take n ++ a.drop n

/-- cstr::swap, what the other string `b` becomes. -/
def swapSnd (n : Nat) (a b : List Int) : List Int := a.take n ++ b.drop n

/-- The shared shape of every value-returning cstr operation: the result is
default-constructed (`cstr<M, ...> ret{}`, every storage element `nul`) and
the loops then assign `ret[i] = c` only at in-range indices `i < M`; the
write list records those assignments in order. -/
def opResult (m : Nat) (writes : List (Nat × Int)) : List Int :=
  writes.foldl (fun r w => r.set w.1 w.2) (mkDefault m)

/-! ### reflect: field counting (src/reflect.hpp, lines 88-107)

A C++ field of an aggregate under probing is characterised by which probe
placeholders can brace-initialise it: `any` is true when `{any_type{}}` is
accepted, `null` when `{std::nullptr_t{}}` is accepted. -/

structure FieldT where
  any : Bool
  null : Bool
deriving DecidableEq

/-- The two probe placeholder types used by number_of_members_impl. -/
inductive Probe where
  | anyType
  | nullPtr
deriving DecidableEq

/-- Whether a placeholder can brace-initialise a field. -/
def accepts (f : FieldT) : Probe → Bool
  | .anyType => f.any
  | .nullPtr => f.null

/-- The test `requires { T_{{Args{}}...}; }`: aggregate brace-initialisation
with `k` arguments succeeds iff `k` does not exceed the field count and each
argument can initialise the corresponding field in order (trailing fields of
a default-constructible aggregate may be omitted). -/
def canInit : List FieldT → List Probe → Bool
  | _, [] => true
  | [], _ :: _ => false
  | f :: fs, a :: args => accepts f a && canInit fs args

/-- reflect::number_of_members_impl<T, Args...>: try one more `any_type`
placeholder; if rejected, try one more `nullptr_t` placeholder; if both are
rejected, return `sizeof...(Args)`.  The C++ recursion terminates because
initialisation always fails once the argument list is longer than the field
list; the fuel argument of `nomImplAux` makes that bound explicit. -/
def nomImplAux : Nat → List FieldT → List Probe → Nat
  | 0, _, args => args.length
  | fuel + 1, fs, args =>
    if canInit fs (args ++ [Probe.anyType]) then
      nomImplAux fuel fs (args ++ [Probe.anyType])
    else if canInit fs (args ++ [Probe.nullPtr]) then
      nomImplAux fuel fs (args ++ [Probe.nullPtr])
    else args.length

/-- reflect::number_of_members_impl<T, Args...> with sufficient fuel. -/
def nomImpl (fs : List FieldT) (args : List Probe) : Nat :=
  nomImplAux (fs.length + 1 - args.length) fs args

/-- reflect::number_of_members<T>: `number_of_members_impl<T>()`, with the
template pack `Args` empty. -/
def number_of_members (fs : List FieldT) : Nat := nomImpl fs []

/-- The fields of the documented example type MyStruct
(src/tests/test-reflect.cpp): number (int), decimal (double), name
(std::string, which also accepts `std::string{nullptr}` under this C++20
build), array (std::size_t[16]), pointer (void*), func_pointer,
member_pointer, member_func_point, uncopyable (std::unique_ptr<int>, for
which `{any_type{}}` list-initialisation is ambiguous among its
constructors, so only the `nullptr` fallback initialises it), ref_wrapper
(std::reference_wrapper<int>).  The pointer-like fields accept `nullptr` as
well as `any_type`. -/
def myStructFields : List FieldT :=
  [⟨true, false⟩, ⟨true, false⟩, ⟨true, true⟩, ⟨true, false⟩,
   ⟨true, true⟩, ⟨true, true⟩, ⟨true, true⟩, ⟨true, true⟩,
   ⟨false, true⟩, ⟨true, false⟩]

/-- Fields of a default-constructible aggregate such as
`struct { std::mutex m; int x; }`: the std::mutex field rejects both probe
placeholders (`{any_type{}}` selects the deleted copy constructor, and a
mutex is not constructible from `nullptr`), while the trailing int accepts
`any_type`. -/
def mutexStructFields : List FieldT := [⟨false, false⟩, ⟨true, false⟩]

/-! ### reflect: field decomposition (src/reflect.hpp, lines 117-1717)

An object of an aggregate type with `n` fields is modelled as a function
`Fin n → α` from field index (in declaration order) to field value.  A
reference to a field is modelled by the index of the field it aliases:
reading through it projects the aliased field out of the object, writing
through it updates exactly that field. -/

/-- reflect::to_tuple<T, N>(t): guarded by `requires(N <= 128)` (`none`
models the failed instantiation).  Each of the 129 `if constexpr` branches
destructures `t` into `N` structured bindings `p0, ..., pN-1` — which, by the
language rules for structured bindings of an aggregate, alias the fields of
`t` in declaration order — and packages them with `std::tie`, so branch `N`
returns the references to fields `0, 1, ..., N-1` in order. -/
def to_tuple {α : Type} (n : Nat) (_obj : Fin n → α) : Option (List (Fin n)) :=
  if n ≤ 128 then some (List.finRange n) else none

/-- Reading through a field reference yields the aliased field. -/
def readRef {α : Type} {n : Nat} (obj : Fin n → α) (r : Fin n) : α := obj r

/-- Assigning through a field reference updates exactly the aliased field of
the object it was obtained from. -/
def writeRef {α : Type} {n : Nat} (obj : Fin n → α) (r : Fin n) (v : α) :
    Fin n → α := Function.update obj r v

/-- Field values of the example type MyStruct, one constructor per field
type; payloads model the stored data (addresses for pointers, an opaque bit
pattern for the double). -/
inductive FieldVal where
  | intV (z : Int)
  | doubleV (bits : Nat)
  | strV (s : List Int)
  | arrV (a : List Nat)
  | ptrV (addr : Nat)
  | funcPtrV (addr : Nat)
  | memPtrV (off : Nat)
  | memFuncPtrV (addr : Nat)
  | uniqueV (p : Option Nat)
  | refWrapV (addr : Nat)
deriving DecidableEq

/-- The array field of the example object: `std::size_t array[16] = {0}`. -/
def myArray : List Nat := List.replicate 16 0

/-- A concrete example object of MyStruct (fields in declaration order). -/
def myStructObj : Fin 10 → FieldVal :=
  ![.intV 0, .doubleV 0, .strV [], .arrV myArray, .ptrV 0,
    .funcPtrV 0, .memPtrV 0, .memFuncPtrV 0, .uniqueV none, .refWrapV 0]

/-- Character codes of "hello world!". -/
def hwCodes : List Int := [104, 101, 108, 108, 111, 32, 119, 111, 114, 108, 100, 33]

/-- Character codes of "there". -/
def thereCodes : List Int := [116, 104, 101, 114, 101]

end Conststr

namespace Conststr

theorem setRangeAux_length (k : Nat) :
    ∀ (r : List Int) (i : Nat) (f : Nat → Int),
      (setRangeAux k r i f).length = r.length := by
  induction k with
  | zero => intro r i f; rfl
  | succ k ih =>
    intro r i f
    show (setRangeAux k (r.set i (f i)) (i + 1) f).length = r.length
    rw [ih, List.length_set]

theorem setRange_length (r : List Int) (i stop : Nat) (f : Nat → Int) :
    (setRange r i stop f).length = r.length := setRangeAux_length _ r i f

theorem getD_of_lt (l : List Int) (j : Nat) (h : j < l.length) :
    l.getD j nul = l.get ⟨j, h⟩ := by
  simp [List.getD_eq_getElem?_getD, List.getElem?_eq_getElem h]

theorem getD_of_le (l : List Int) (j : Nat) (h : l.length ≤ j) :
    l.getD j nul = nul := by
  simp [List.getD_eq_getElem?_getD, List.getElem?_eq_none h]

theorem setRangeAux_getD (k : Nat) :
    ∀ (r : List Int) (i : Nat) (f : Nat → Int), i + k ≤ r.length → ∀ j,
      (setRangeAux k r i f).getD j nul =
        if i ≤ j ∧ j < i + k then f j else r.getD j nul := by
  induction k with
  | zero =>
    intro r i f _ j
    show r.getD j nul = _
    rw [if_neg (by omega)]
  | succ k ih =>
    intro r i f hk j
    have hi : i < r.length := by omega
    show (setRangeAux k (r.set i (f i)) (i + 1) f).getD j nul = _
    rw [ih (r.set i (f i)) (i + 1) f (by rw [List.length_set]; omega) j]
    by_cases h1 : i + 1 ≤ j ∧ j < i + 1 + k
    · rw [if_pos h1, if_pos (by omega)]
    · rw [if_neg h1]
      by_cases h2 : j = i
      · subst h2
        rw [if_pos (by omega), getD_of_lt _ j (by rw [List.length_set]; omega)]
        simp [List.getElem_set]
      · rw [if_neg (by omega)]
        by_cases h3 : j < r.length
        · rw [getD_of_lt _ j (by rw [List.length_set]; omega),
            getD_of_lt _ j h3]
          simp [List.getElem_set, h2, Ne.symm h2]
        · rw [getD_of_le _ j (by rw [List.length_set]; omega),
            getD_of_le _ j (by omega)]

theorem setRange_getD (r : List Int) (i stop : Nat) (f : Nat → Int)
    (hi : i ≤ stop) (hstop : stop ≤ r.length) (j : Nat) :
    (setRange r i stop f).getD j nul =
      if i ≤ j ∧ j < stop then f j else r.getD j nul := by
  have h := setRangeAux_getD (stop - i) r i f (by omega) j
  rw [setRange, h]
  congr 1
  simp only [eq_iff_iff]
  omega

end Conststr

namespace Conststr

/-! ### Claim C4 -/

/-- C4: for `s.find(ch)` and `s.rfind(ch)` the claim says an absent character
yields the sentinel `npos` (= `s.size()`) from both.  The current
include/conststr.hpp `find`/`rfind` do return `npos`, but the older root
src/conststr.hpp `rfind` returns `iter.base() - cbegin() - 1` without the
`crend()` check, which for an absent character underflows `size_type` to
`2^64 - 1`, not `npos`; evaluated at `s = "ab"`, `ch = 'z'` (code 122) with
the default start position `npos = 2`. -/
theorem c4_rfind_absent_underflow :
    rfindChOld [97, 98] 122 2 = 2 ^ 64 - 1 ∧
    rfindCh [97, 98] 122 2 = npos [97, 98] ∧
    findCh [97, 98] 122 0 = npos [97, 98] ∧
    rfindChOld [97, 98] 122 2 ≠ npos [97, 98] := by decide

/-! ### Claim C5 -/

/-- C5: the claim says `starts_with`/`ends_with` hold iff the query is no
longer than the receiver and the overlapping characters agree, for every
supported view type.  The `std::basic_string_view` branch behaves that way,
but the branches used for view types without a native `starts_with`/
`ends_with` compare sizes strictly (`size() > str.size()`), so a matching
query of exactly the receiver's length yields `false` there; evaluated at
`s = "ab"` with query `"ab"`.  (A query longer than the receiver does yield
`false` in every branch, also checked here.) -/
theorem c5_starts_ends_with_strict :
    starts_with_gen [97, 98] [97, 98] = false ∧
    starts_with_sv [97, 98] [97, 98] = true ∧
    ends_with_gen [97, 98] [97, 98] = false ∧
    ends_with_sv [97, 98] [97, 98] = true ∧
    starts_with_gen [97] [97, 98] = false ∧
    starts_with_sv [97] [97, 98] = false ∧
    ends_with_gen [97] [97, 98] = false ∧
    ends_with_sv [97] [97, 98] = false := by decide

/-! ### Claim C6 -/

/-- C6: the claim (and the doc comment of `cstr::replace(pos, str, count)`)
says the characters in `[pos, min(pos + count * str.size(), N))` become the
cyclic repetition of `str` and all others stay; the loop instead writes
`ret[i]`, i.e. the block `[0, end - pos)`.  Evaluated at
`s = "hello world!"`, `pos = 6`, `str = "there"`, `count = 1`: the code
produces "there world!" while the documented result is "hello there!". -/
theorem c6_replace_writes_at_wrong_offset :
    replaceView hwCodes 6 thereCodes 1 =
      [116, 104, 101, 114, 101, 32, 119, 111, 114, 108, 100, 33] ∧
    replaceViewSpec hwCodes 6 thereCodes 1 =
      [104, 101, 108, 108, 111, 32, 116, 104, 101, 114, 101, 33] ∧
    replaceView hwCodes 6 thereCodes 1 ≠ replaceViewSpec hwCodes 6 thereCodes 1 := by
  decide

/-! ### Claim C3, counterexample -/

/-- C3 counterexample: for `Name = "abc"`, which contains identifier
characters only, the claim demands `basename_of<Name> = "abc"`; but the
second `rfind_if` finds no non-identifier character and returns `npos = 3`,
so `begin = 4` and the final `substr<4, ...>` violates its
`requires(N >= Start)` clause: the instantiation fails to compile (`none`)
instead of producing the trailing identifier. -/
theorem c3_basename_all_ident_fails :
    basenameOf [97, 98, 99] = none ∧
    basenameOf [97, 98, 99] ≠ some [97, 98, 99] := by decide

/-! ### Claim C7, counterexample -/

/-- C7 counterexample: `substr`'s start is not clamped: for `s = "ab"` the
instantiation `substr<5>()` violates `requires(N >= Start)` and fails to
compile (`none`), which differs from what clamping the start to
`size() = 2` would produce. -/
theorem c7_substr_start_not_clamped :
    substr [97, 98] 5 1 = none ∧
    substr [97, 98] 5 1 ≠ substr [97, 98] 2 1 := by decide

/-! ### Claim C8, counterexample -/

/-- C8 counterexample: `transform` default-constructs its result, so a
character outside the transformed range is the zero character, not the
corresponding character of `s`: at `s = "ab"`, `op = toupper`, `pos = 1`,
`len = 1`, position 0 of the result is `'\0'` while `s[0] = 'a'`. -/
theorem c8_transform_zeroes_outside_range :
    transform [97, 98] toupper 1 1 = [0, 66] ∧
    (transform [97, 98] toupper 1 1).getD 0 nul ≠
      ([97, 98] : List Int).getD 0 nul := by decide

end Conststr

namespace Conststr

/-! ### Pointwise helper lemmas -/

theorem replicate_getD (m j : Nat) : (List.replicate m nul).getD j nul = nul := by
  by_cases h : j < m
  · rw [getD_of_lt _ j (by simpa using h)]
    simp
  · exact getD_of_le _ j (by simpa using h)

theorem set_getD_self (l : List Int) (i : Nat) (v : Int) (h : i < l.length) :
    (l.set i v).getD i nul = v := by
  rw [getD_of_lt _ i (by simpa using h)]
  simp [List.getElem_set]

theorem set_getD_ne (l : List Int) (i j : Nat) (v : Int) (hij : i ≠ j) :
    (l.set i v).getD j nul = l.getD j nul := by
  by_cases h : j < l.length
  · rw [getD_of_lt _ j (by simpa using h), getD_of_lt _ j h]
    simp [List.getElem_set, hij]
  · rw [getD_of_le _ j (by simp; omega), getD_of_le _ j (by omega)]

theorem map_getD (s : List Int) (op : Int → Int) (j : Nat) (h : j < s.length) :
    (s.map op).getD j nul = op (s.getD j nul) := by
  rw [getD_of_lt _ j (by simpa using h), getD_of_lt _ j h]
  simp

theorem ext_getD (a b : List Int) (hl : a.length = b.length)
    (h : ∀ j, j < a.length → a.getD j nul = b.getD j nul) : a = b := by
  apply List.ext_getElem hl
  intro i h1 h2
  have hi := h i h1
  rw [getD_of_lt _ i h1, getD_of_lt _ i h2] at hi
  simpa using hi

/-! ### transform lemmas -/

theorem transform_length (s : List Int) (op : Int → Int) (pos len : Nat) :
    (transform s op pos len).length = s.length := by
  simp [transform, setRange_length]

theorem transform_getD (s : List Int) (op : Int → Int) (pos len j : Nat) :
    (transform s op pos len).getD j nul =
      if min pos s.length ≤ j ∧ j < min (min pos s.length + len) s.length
      then op (s.getD j nul) else nul := by
  rw [transform, setRange_getD _ _ _ _ (by omega) (by simp) j]
  by_cases h : min pos s.length ≤ j ∧ j < min (min pos s.length + len) s.length
  · rw [if_pos h, if_pos h]
  · rw [if_neg h, if_neg h, replicate_getD]

theorem transform_full (s : List Int) (op : Int → Int) :
    transform s op 0 s.length = s.map op := by
  apply ext_getD
  · rw [transform_length]
    simp
  · intro j hj
    rw [transform_length] at hj
    rw [transform_getD, if_pos (by omega), map_getD _ _ j hj]

/-! ### Claim C8, amended -/

/-- C8 (amended): `s.transform(op, pos, len)` returns a string of size `N`
whose characters in `[pos', min(pos' + len, N))`, `pos' = min(pos, N)`, are
`op` of the corresponding characters of `s`; the characters at every position
outside that range are the zero character `'\0'` (the result is
default-constructed and only the transformed range is written), not the
corresponding characters of `s`; and `s.replace<Chs...>(pos, len)` is exactly
`transform(charutils::replace<Chs...>, pos, len)`. -/
theorem c8_transform_frame_amended (s : List Int) (op : Int → Int) (pos len : Nat) :
    (transform s op pos len).length = s.length ∧
    (∀ j, j < s.length →
      (transform s op pos len).getD j nul =
        if min pos s.length ≤ j ∧ j < min (min pos s.length + len) s.length
        then op (s.getD j nul) else nul) ∧
    (∀ chs, replacePack s chs pos len = transform s (creplace chs) pos len) :=
  ⟨transform_length s op pos len, fun j _ => transform_getD s op pos len j,
    fun _ => rfl⟩

/-- C8 witness: the amended statement at `s = "ab"`, `op = toupper`,
`pos = 1`, `len = 1`: position 1 is transformed, position 0 becomes `'\0'`. -/
theorem c8_amended_witness :
    (transform [97, 98] toupper 1 1).length = 2 ∧
    (transform [97, 98] toupper 1 1).getD 1 nul = toupper 98 ∧
    (transform [97, 98] toupper 1 1).getD 0 nul = nul := by
  have h := c8_transform_frame_amended [97, 98] toupper 1 1
  refine ⟨?_, ?_, ?_⟩
  · rw [h.1]; rfl
  · rw [h.2.1 1 (by decide)]; decide
  · rw [h.2.1 0 (by decide)]; decide

/-! ### Claim C10 -/

theorem toupper_toupper (c : Int) : toupper (toupper c) = toupper c := by
  unfold toupper
  split_ifs <;> omega

theorem tolower_toupper (c : Int) : tolower (toupper c) = tolower c := by
  unfold toupper tolower
  split_ifs <;> omega

/-- C10: `s.uppercase().uppercase() == s.uppercase()` for every string over
char elements; and `s.uppercase().lowercase() == s.lowercase()` whenever
every character of `s` is a cased alphabetic character (`issuper` or
`islower`) or a non-alphabetic character. -/
theorem c10_case_laws :
    (∀ s : List Int, uppercase (uppercase s) = uppercase s) ∧
    (∀ s : List Int, (∀ c ∈ s, ((issuper c || islower c) || !(isalpha c)) = true) →
      lowercase (uppercase s) = lowercase s) := by
  have hu : ∀ t : List Int, uppercase t = t.map toupper := fun t =>
    transform_full t toupper
  have hl : ∀ t : List Int, lowercase t = t.map tolower := fun t =>
    transform_full t tolower
  constructor
  · intro s
    rw [hu (uppercase s), hu s, List.map_map]
    apply List.map_congr_left
    intro a _
    simp only [Function.comp_apply]
    exact toupper_toupper a
  · intro s _
    rw [hl (uppercase s), hu s, hl s, List.map_map]
    apply List.map_congr_left
    intro a _
    simp only [Function.comp_apply]
    exact tolower_toupper a

/-- C10 witness: both laws applied at the concrete string "hello world!"
(every character is cased alphabetic or non-alphabetic). -/
theorem c10_witness :
    uppercase (uppercase hwCodes) = uppercase hwCodes ∧
    lowercase (uppercase hwCodes) = lowercase hwCodes :=
  ⟨c10_case_laws.1 hwCodes, c10_case_laws.2 hwCodes (by decide)⟩

end Conststr

namespace Conststr

/-! ### substr and pop lemmas -/

theorem substrUnchecked_length (s : List Int) (start len : Nat) :
    (substrUnchecked s start len).length = min (start + len) s.length - start := by
  simp [substrUnchecked, setRange_length]

theorem substrUnchecked_getD (s : List Int) (start len j : Nat)
    (hj : j < min (start + len) s.length - start) :
    (substrUnchecked s start len).getD j nul = s.getD (start + j) nul := by
  rw [substrUnchecked, setRange_getD _ _ _ _ (Nat.zero_le _) (by simp) j,
    if_pos ⟨Nat.zero_le _, hj⟩]

theorem pop_take (s : List Int) : pop s = s.take (s.length - 1) := by
  apply ext_getD
  · rw [pop, cut, substrUnchecked_length]
    simp only [List.length_take]
    omega
  · intro j hj
    rw [pop, cut, substrUnchecked_length] at hj
    rw [pop, cut, substrUnchecked_getD _ _ _ _ hj]
    have hjs : j < s.length - 1 := by omega
    rw [getD_of_lt _ _ (show j < (s.take (s.length - 1)).length by
        simp only [List.length_take]; omega),
      getD_of_lt _ _ (show 0 + j < s.length by omega)]
    simp

/-! ### Claim C7, amended -/

/-- C7 (amended): `insert`, `erase` and `replace` accept out-of-range
positions and clamp them: `insert` at `pos > size()` inserts at `size()`,
`erase` at `pos >= size()` removes the last character (it returns `pop()`,
the first `size() - 1` characters), and `replace` clamps `pos` to `size()`.
`substr`'s start, however, is not clamped: a start past `size()` violates the
compile-time constraint `requires(N >= Start)` and the instantiation is
rejected; what `substr` clamps is the end of the requested range, which is
capped at `size()`. -/
theorem c7_clamping_amended :
    (∀ (s : List Int) (pos : Nat) (ch : Int) (count : Nat), pos > s.length →
      insertCh s pos ch count = insertCh s s.length ch count) ∧
    (∀ (s : List Int) (pos : Nat), pos ≥ s.length → eraseAt s pos = pop s) ∧
    (∀ s : List Int, pop s = s.take (s.length - 1)) ∧
    (∀ (s : List Int) (pos : Nat) (str : List Int) (count : Nat), pos > s.length →
      replaceView s pos str count = replaceView s s.length str count) ∧
    (∀ (s : List Int) (start len : Nat), start > s.length →
      substr s start len = none) ∧
    (∀ (s : List Int) (start len : Nat), start ≤ s.length →
      substr s start len = some (substrUnchecked s start len) ∧
      (substrUnchecked s start len).length = min (start + len) s.length - start) := by
  refine ⟨?_, ?_, pop_take, ?_, ?_, ?_⟩
  · intro s pos ch count h
    have hmin : min pos s.length = s.length := by omega
    rw [insertCh, insertCh, hmin, Nat.min_self]
  · intro s pos h
    rw [eraseAt, if_pos h]
  · intro s pos str count h
    have hmin : min pos s.length = s.length := by omega
    rw [replaceView, replaceView, hmin, Nat.min_self]
  · intro s start len h
    rw [substr, if_neg (by omega)]
  · intro s start len h
    exact ⟨by rw [substr, if_pos (by omega)], substrUnchecked_length s start len⟩

/-- C7 witness: the amended statement at concrete inputs: inserting "c" at
position 5 of "ab" equals inserting at position 2; erasing position 7 of
"abc" removes the final character; replacing past the end of
"hello world!" is clamped; `substr<5>` on "ab" is rejected while
`substr<2, 1>` is accepted with the range end clamped to the size. -/
theorem c7_witness :
    insertCh [97, 98] 5 99 1 = insertCh [97, 98] 2 99 1 ∧
    eraseAt [97, 98, 99] 7 = pop [97, 98, 99] ∧
    pop [97, 98, 99] = [97, 98] ∧
    replaceView hwCodes 50 thereCodes 1 = replaceView hwCodes 12 thereCodes 1 ∧
    substr [97, 98] 5 1 = none ∧
    substr [97, 98] 2 1 = some (substrUnchecked [97, 98] 2 1) ∧
    (substrUnchecked [97, 98] 2 1).length = 0 := by
  refine ⟨?_, c7_clamping_amended.2.1 [97, 98, 99] 7 (by decide), ?_,
    ?_, c7_clamping_amended.2.2.2.2.1 [97, 98] 5 1 (by decide),
    (c7_clamping_amended.2.2.2.2.2 [97, 98] 2 1 (by decide)).1, ?_⟩
  · have h := c7_clamping_amended.1 [97, 98] 5 99 1 (by decide)
    simpa using h
  · rw [c7_clamping_amended.2.2.1 [97, 98, 99]]
    decide
  · have h := c7_clamping_amended.2.2.2.1 hwCodes 50 thereCodes 1 (by decide)
    simpa using h
  · rw [(c7_clamping_amended.2.2.2.2.2 [97, 98] 2 1 (by decide)).2]
    decide

end Conststr

namespace Conststr

/-! ### Claim C9: storage invariant -/

theorem append_nul_getD (a : List Int) : (a ++ [nul]).getD a.length nul = nul := by
  rw [getD_of_lt _ _ (by simp)]
  simp

theorem take_append_nul_inv (n : Nat) (s : List Int) (h : n ≤ s.length) :
    inv n (s.take n ++ [nul]) := by
  have hlt : (s.take n).length = n := by simp; omega
  refine ⟨by simp [hlt], ?_⟩
  have := append_nul_getD (s.take n)
  rwa [hlt] at this

theorem foldl_set_inv (m : Nat) (writes : List (Nat × Int)) :
    ∀ r : List Int, r.length = m + 1 → r.getD m nul = nul →
      (∀ w ∈ writes, w.1 < m) →
      (writes.foldl (fun r w => r.set w.1 w.2) r).length = m + 1 ∧
      (writes.foldl (fun r w => r.set w.1 w.2) r).getD m nul = nul := by
  induction writes with
  | nil => intro r h1 h2 _; exact ⟨h1, h2⟩
  | cons w ws ih =>
    intro r h1 h2 hb
    have hw : w.1 < m := hb w (List.mem_cons_self w ws)
    refine ih (r.set w.1 w.2) (by simpa using h1) ?_
      (fun v hv => hb v (List.mem_cons_of_mem w hv))
    rw [set_getD_ne _ _ _ _ (by omega)]
    exact h2

/-- C9: every cstr constructor (default, from a literal, from a fill
character, from a character pack, by copy, and by re-viewing under another
view type) establishes the storage invariant: the storage holds `N+1`
elements whose last is the zero terminator, while iteration, indexing and
`size()` cover exactly the first `N` elements (the storage is exactly its
first `N` elements followed by the terminator).  The in-place `fill` and
`swap` preserve the invariant, and every value-returning operation satisfies
it as well: each one default-constructs its result (invariant holds) and then
assigns only in-range indices `i < M`, the pattern captured by `opResult`. -/
theorem c9_storage_invariant :
    (∀ n, inv n (mkDefault n)) ∧
    (∀ n str, str.length = n + 1 → inv n (mkLiteral n str)) ∧
    (∀ n ch, inv n (mkFillCh n ch)) ∧
    (∀ vs : List Int, inv vs.length (mkPack vs)) ∧
    (∀ n s, inv n s → inv n (mkCopy s)) ∧
    (∀ n s, s.length = n + 1 → inv n (mkReview n s)) ∧
    (∀ n s ch, s.length = n + 1 → inv n (fillStorage s ch)) ∧
    (∀ n a b, inv n a → inv n b → inv n (swapFst n a b) ∧ inv n (swapSnd n a b)) ∧
    (∀ m writes, (∀ w ∈ writes, w.1 < m) → inv m (opResult m writes)) ∧
    (∀ n s, inv n s → s = s.dropLast ++ [nul] ∧ s.dropLast.length = n) := by
  have hfill : ∀ (n : Nat) (s : List Int) (ch : Int), s.length = n + 1 →
      inv n (fillStorage s ch) := by
    intro n s ch h
    constructor
    · simp [fillStorage, setRange_length, h]
    · rw [fillStorage, h]
      exact set_getD_self _ n nul (by rw [setRange_length]; omega)
  have hswap : ∀ (n : Nat) (a b : List Int), inv n a → inv n b →
      inv n (swapFst n a b) := by
    intro n a b ha hb
    obtain ⟨ha1, ha2⟩ := ha
    obtain ⟨hb1, hb2⟩ := hb
    have hdrop : a.drop n = [nul] := by
      have hlt : n < a.length := by omega
      have h1 : a.drop n = a.getD n nul :: a.drop (n + 1) := by
        rw [getD_of_lt _ n hlt, List.get_eq_getElem]
        exact List.drop_eq_getElem_cons hlt
      rw [h1, ha2, List.drop_eq_nil_of_le (by omega)]
    constructor
    · simp only [swapFst, hdrop, List.length_append, List.length_take,
        List.length_cons, List.length_nil]
      omega
    · rw [swapFst, hdrop]
      have := append_nul_getD (b.take n)
      rwa [show (b.take n).length = n by simp [hb1]] at this
  refine ⟨?_, ?_, ?_, ?_, ?_, ?_, hfill, ?_, ?_, ?_⟩
  · intro n
    exact ⟨by simp [mkDefault], replicate_getD (n + 1) n⟩
  · intro n str h
    exact take_append_nul_inv n str (by omega)
  · intro n ch
    exact hfill n (List.replicate (n + 1) nul) ch (by simp)
  · intro vs
    exact ⟨by simp [mkPack], append_nul_getD vs⟩
  · intro n s h
    exact h
  · intro n s h
    exact take_append_nul_inv n s (by omega)
  · intro n a b ha hb
    exact ⟨hswap n a b ha hb, hswap n b a hb ha⟩
  · intro m writes hw
    exact foldl_set_inv m writes (mkDefault m) (by simp [mkDefault])
      (replicate_getD (m + 1) m) hw
  · intro n s h
    obtain ⟨h1, h2⟩ := h
    have hne : s ≠ [] := by
      intro he
      rw [he] at h1
      simp at h1
    have hlt : s.length - 1 < s.length := by omega
    have hd := List.dropLast_concat_getLast hne
    have hg : s.getLast hne = nul := by
      have hg2 : s.getD (s.length - 1) nul = nul := by
        rw [show s.length - 1 = n by omega]
        exact h2
      rw [getD_of_lt s (s.length - 1) hlt] at hg2
      rw [List.getLast_eq_getElem]
      simpa using hg2
    constructor
    · nth_rewrite 1 [← hd]
      rw [hg]
    · simp
      omega

/-- C9 witness: the invariant checked through the theorem at concrete
instances of every constructor and operation shape. -/
theorem c9_witness :
    inv 2 (mkDefault 2) ∧
    inv 2 (mkLiteral 2 [104, 105, 7]) ∧
    inv 3 (mkFillCh 3 120) ∧
    inv 2 (mkPack [104, 105]) ∧
    inv 2 (mkCopy (mkPack [104, 105])) ∧
    inv 2 (mkReview 2 [104, 105, 0]) ∧
    inv 2 (fillStorage [104, 105, 0] 122) ∧
    inv 2 (swapFst 2 [104, 105, 0] [119, 122, 0]) ∧
    inv 2 (swapSnd 2 [104, 105, 0] [119, 122, 0]) ∧
    inv 3 (opResult 3 [(0, 104), (2, 105), (1, 104)]) := by
  have hp : inv 2 (mkPack [104, 105]) := by
    have := c9_storage_invariant.2.2.2.1 [104, 105]
    simpa using this
  refine ⟨c9_storage_invariant.1 2,
    c9_storage_invariant.2.1 2 [104, 105, 7] (by decide),
    c9_storage_invariant.2.2.1 3 120,
    hp,
    c9_storage_invariant.2.2.2.2.1 2 (mkPack [104, 105]) hp,
    c9_storage_invariant.2.2.2.2.2.1 2 [104, 105, 0] (by decide),
    c9_storage_invariant.2.2.2.2.2.2.1 2 [104, 105, 0] 122 (by decide),
    (c9_storage_invariant.2.2.2.2.2.2.2.1 2 [104, 105, 0] [119, 122, 0]
      (by constructor <;> decide) (by constructor <;> decide)).1,
    (c9_storage_invariant.2.2.2.2.2.2.2.1 2 [104, 105, 0] [119, 122, 0]
      (by constructor <;> decide) (by constructor <;> decide)).2,
    c9_storage_invariant.2.2.2.2.2.2.2.2.1 3 [(0, 104), (2, 105), (1, 104)]
      (by decide)⟩

end Conststr

namespace Conststr

/-! ### Claim C1: field counting -/

theorem canInit_le (fs : List FieldT) :
    ∀ args : List Probe, canInit fs args = true → args.length ≤ fs.length := by
  induction fs with
  | nil =>
    intro args h
    cases args with
    | nil => simp
    | cons a args => simp [canInit] at h
  | cons f fs ih =>
    intro args h
    cases args with
    | nil => simp
    | cons a args =>
      rw [canInit, Bool.and_eq_true] at h
      have := ih args h.2
      simp
      omega

theorem canInit_nil (fs : List FieldT) : canInit fs [] = true := by
  cases fs <;> rfl

theorem canInit_snoc (fs : List FieldT) :
    ∀ (args : List Probe) (ph : Probe),
      canInit fs (args ++ [ph]) = true ↔
        canInit fs args = true ∧
        ∃ h : args.length < fs.length, accepts (fs.get ⟨args.length, h⟩) ph = true := by
  induction fs with
  | nil =>
    intro args ph
    constructor
    · intro h
      have := canInit_le [] (args ++ [ph]) h
      simp at this
    · intro ⟨_, h, _⟩
      simp at h
  | cons f fs ih =>
    intro args ph
    cases args with
    | nil =>
      show (accepts f ph && canInit fs []) = true ↔ _
      rw [canInit_nil fs, Bool.and_true]
      constructor
      · intro h
        exact ⟨rfl, Nat.succ_pos _, h⟩
      · intro ⟨_, _, h⟩
        exact h
    | cons a args =>
      show (accepts f a && canInit fs (args ++ [ph])) = true ↔ _
      rw [Bool.and_eq_true, ih args ph]
      constructor
      · intro ⟨h1, h2, h3, h4⟩
        refine ⟨?_, by simpa using h3, h4⟩
        show (accepts f a && canInit fs args) = true
        rw [Bool.and_eq_true]
        exact ⟨h1, h2⟩
      · intro ⟨h12, h3, h4⟩
        have h12b : (accepts f a && canInit fs args) = true := h12
        rw [Bool.and_eq_true] at h12b
        exact ⟨h12b.1, h12b.2, by simpa using h3, h4⟩

theorem nomImplAux_eq (fs : List FieldT)
    (hall : ∀ f ∈ fs, f.any = true ∨ f.null = true) :
    ∀ (fuel : Nat) (args : List Probe), canInit fs args = true →
      fs.length + 1 ≤ fuel + args.length → nomImplAux fuel fs args = fs.length := by
  intro fuel
  induction fuel with
  | zero =>
    intro args hc hf
    have := canInit_le fs args hc
    show args.length = fs.length
    omega
  | succ fuel ih =>
    intro args hc hf
    by_cases hlen : args.length < fs.length
    · have hmem : fs.get ⟨args.length, hlen⟩ ∈ fs := List.get_mem fs args.length hlen
      by_cases hany : canInit fs (args ++ [Probe.anyType]) = true
      · rw [nomImplAux, if_pos hany]
        exact ih (args ++ [Probe.anyType]) hany (by simp; omega)
      · have hnull : canInit fs (args ++ [Probe.nullPtr]) = true := by
          rw [canInit_snoc]
          refine ⟨hc, hlen, ?_⟩
          rcases hall _ hmem with h | h
          · exfalso
            apply hany
            rw [canInit_snoc]
            exact ⟨hc, hlen, h⟩
          · exact h
        rw [nomImplAux, if_neg hany, if_pos hnull]
        exact ih (args ++ [Probe.nullPtr]) hnull (by simp; omega)
    · have h1 : canInit fs (args ++ [Probe.anyType]) = false := by
        by_contra hx
        have := canInit_le fs (args ++ [Probe.anyType]) (by simpa using hx)
        simp at this
        omega
      have h2 : canInit fs (args ++ [Probe.nullPtr]) = false := by
        by_contra hx
        have := canInit_le fs (args ++ [Probe.nullPtr]) (by simpa using hx)
        simp at this
        omega
      rw [nomImplAux, if_neg (by simp [h1]), if_neg (by simp [h2])]
      have := canInit_le fs args hc
      omega

/-- C1 counterexample: the claim quantifies over every default-constructible
aggregate, but for one with a field that rejects both probe placeholders —
such as `struct { std::mutex m; int x; }`, whose mutex member is rejected by
`{any_type{}}` (deleted copy constructor) and by `{nullptr}` — both trial
initialisations already fail at the first position, so `number_of_members`
returns 0, not the field count 2. -/
theorem c1_probe_rejected_counterexample :
    number_of_members mutexStructFields = 0 ∧
    mutexStructFields.length = 2 ∧
    number_of_members mutexStructFields ≠ mutexStructFields.length := by decide

/-- C1 (amended): for every default-constructible aggregate whose fields each
accept at least one of the two probe placeholders (the general `any_type` one
or the narrower `nullptr` fallback), the probe-based deduction grows the
probe list until brace-initialisation first fails and `number_of_members`
equals the number of fields; a field that rejects both placeholders stops the
deduction at its index, so the count comes out too small (see the
counterexample). -/
theorem c1_number_of_members (fs : List FieldT)
    (hall : ∀ f ∈ fs, f.any = true ∨ f.null = true) :
    number_of_members fs = fs.length := by
  have hnil : canInit fs [] = true := by cases fs <;> rfl
  exact nomImplAux_eq fs hall (fs.length + 1 - 0) [] hnil (by simp)

/-- C1 witness: the documented example type MyStruct with its ten fields
[number, decimal, name, array, pointer, func_pointer, member_pointer,
member_func_point, uncopyable, ref_wrapper] (uncopyable accepted only by the
`nullptr` fallback): `number_of_members` is 10. -/
theorem c1_witness : number_of_members myStructFields = 10 := by
  have h := c1_number_of_members myStructFields (by decide)
  simpa using h

end Conststr

namespace Conststr

/-! ### Claim C2: field decomposition -/

/-- C2: for every object of an aggregate type with `n <= 128` fields,
`to_tuple` succeeds and returns exactly `n` references whose `i`-th component
aliases the `i`-th field of the object in declaration order; reading through
component `i` yields field `i`, and assigning a value through component `i`
makes field `i` equal that value while every other field is unchanged.
Consequently, on the example type, assigning 114 through component 0 makes
field 0 (`number`) equal 114, and assigning through element 10 of the
array-typed component 3 updates exactly element 10 of the object's `array`
field. -/
theorem c2_to_tuple_refs :
    (∀ (n : Nat) (obj : Fin n → FieldVal), n ≤ 128 →
      to_tuple n obj = some (List.finRange n) ∧
      (List.finRange n).length = n ∧
      (∀ i : Fin n, (List.finRange n)[i.val]? = some i ∧ readRef obj i = obj i) ∧
      (∀ (i : Fin n) (v : FieldVal), readRef (writeRef obj i v) i = v ∧
        ∀ j : Fin n, j ≠ i → readRef (writeRef obj i v) j = obj j)) ∧
    readRef (writeRef myStructObj 0 (FieldVal.intV 114)) 0 = FieldVal.intV 114 ∧
    (∀ j : Fin 10, j ≠ 0 →
      readRef (writeRef myStructObj 0 (FieldVal.intV 114)) j = myStructObj j) ∧
    readRef (writeRef myStructObj 3 (FieldVal.arrV (myArray.set 10 514))) 3 =
      FieldVal.arrV (myArray.set 10 514) ∧
    (myArray.set 10 514).getD 10 0 = 514 ∧
    (myArray.set 10 514).getD 0 0 = myArray.getD 0 0 := by
  refine ⟨?_, ?_, ?_, ?_, by decide, by decide⟩
  · intro n obj hn
    refine ⟨by rw [to_tuple, if_pos hn], by rw [List.length_finRange], ?_, ?_⟩
    · intro i
      refine ⟨?_, rfl⟩
      rw [List.getElem?_eq_getElem (by rw [List.length_finRange]; exact i.isLt)]
      simp
    · intro i v
      refine ⟨?_, ?_⟩
      · rw [readRef, writeRef, Function.update_same]
      · intro j hj
        rw [readRef, writeRef, Function.update_noteq hj]
  · rw [readRef, writeRef, Function.update_same]
  · intro j hj
    rw [readRef, writeRef, Function.update_noteq hj]
  · rw [readRef, writeRef, Function.update_same]

/-- C2 witness: the decomposition applied to the concrete example object with
`n = 10`: the tuple has 10 components, component 0 is the reference to field
0, and the element-wise array update through component 3 is visible in the
object. -/
theorem c2_witness :
    to_tuple 10 myStructObj = some (List.finRange 10) ∧
    (List.finRange 10).length = 10 ∧
    readRef (writeRef myStructObj 0 (FieldVal.intV 114)) 0 = FieldVal.intV 114 ∧
    (myArray.set 10 514).getD 10 0 = 514 := by
  have h := c2_to_tuple_refs
  have h1 := h.1 10 myStructObj (by omega)
  exact ⟨h1.1, h1.2.1, h.2.1, h.2.2.2.2.1⟩

end Conststr

namespace Conststr

/-! ### Claim C3: basename extraction -/

theorem getD_eq_elem (s : List Int) (j : Nat) (h : j < s.length) :
    s.getD j nul = s[j] := by
  rw [getD_of_lt s j h]
  simp

/-- Characterisation of the reverse scan: if `t` is the last index before
`pos` whose character satisfies `p`, then `rfind_if` returns `t`. -/
theorem rfind_if_spec (s : List Int) (p : Int → Bool) (pos t : Nat)
    (hpos : pos ≤ s.length) (ht : t < pos)
    (hp : p (s.getD t nul) = true)
    (hmax : ∀ j, t < j → j < pos → p (s.getD j nul) = false) :
    rfind_if s p pos = t := by
  have hrevlen : ((s.take pos).reverse).length = pos := by
    simp
    omega
  have hlt : pos - 1 - t < ((s.take pos).reverse).length := by omega
  have hfi : ((s.take pos).reverse).findIdx p = pos - 1 - t := by
    apply (List.findIdx_eq hlt).mpr
    constructor
    · have he : ((s.take pos).reverse)[pos - 1 - t] = s[t] := by
        simp only [List.getElem_reverse, List.getElem_take, List.length_take]
        congr 1
        omega
      rw [he, ← getD_eq_elem s t (by omega)]
      exact hp
    · intro j hji
      have hj2 : j < ((s.take pos).reverse).length := by omega
      have he : ((s.take pos).reverse)[j] = s[pos - 1 - j] := by
        simp only [List.getElem_reverse, List.getElem_take, List.length_take]
        congr 1
        omega
      rw [he, ← getD_eq_elem s (pos - 1 - j) (by omega)]
      exact hmax (pos - 1 - j) (by omega) (by omega)
  rw [rfind_if, hfi, hrevlen, if_neg (by omega)]
  omega

/-- C3 (amended): for every compile-time string `Name` that contains an
identifier character and in which the final run of identifier characters is
preceded by at least one non-identifier character, `basename_of<Name>` equals
the trailing identifier: the substring strictly between the last
non-identifier character preceding the final run (index `b`) and one past the
last identifier character (index `e + 1`).  (When the final identifier run
starts at index 0 there is no such `b`; the inner `rfind_if` then returns
`npos` and the final `substr` violates `requires(N >= Start)`, so the
instantiation is rejected — see the counterexample.) -/
theorem c3_basename_amended (name : List Int) (e b : Nat)
    (he : e < name.length)
    (hpe : isident (name.getD e nul) = true)
    (hafter : ∀ j, e < j → j < name.length → isident (name.getD j nul) = false)
    (hb : b < e)
    (hpb : isident (name.getD b nul) = false)
    (hrun : ∀ j, b < j → j ≤ e → isident (name.getD j nul) = true) :
    basenameOf name = some ((name.drop (b + 1)).take (e - b)) := by
  have h1 : rfind_if name isident name.length = e := by
    apply rfind_if_spec name isident name.length e (le_refl _) he hpe
    intro j hj1 hj2
    exact hafter j hj1 hj2
  have h2 : rfind_if name (fun ch => !(isident ch)) (e + 1) = b := by
    apply rfind_if_spec name _ (e + 1) b (by omega) (by omega)
    · rw [hpb]
      rfl
    · intro j hj1 hj2
      rw [hrun j hj1 (by omega)]
      rfl
  rw [basenameOf, h1, h2, substr, if_pos (by omega)]
  congr 1
  apply ext_getD
  · rw [substrUnchecked_length]
    simp
    omega
  · intro j hj
    rw [substrUnchecked_length] at hj
    rw [substrUnchecked_getD _ _ _ _ hj]
    have hj2 : j < e - b := by omega
    rw [getD_eq_elem name (b + 1 + j) (by omega),
      getD_of_lt _ j (by simp; omega)]
    simp

/-- C3 witness: the amended statement at the concrete qualified name
"x::y!" (codes [120, 58, 58, 121, 33]) with `e = 3` (the "y") and `b = 2`
(the second ":"): the basename is "y". -/
theorem c3_witness : basenameOf [120, 58, 58, 121, 33] = some [121] := by
  have h := c3_basename_amended [120, 58, 58, 121, 33] 3 2 (by decide) (by decide)
    (by
      intro j h1 h2
      have h2n : j < 5 := by simpa using h2
      have hj : j = 4 := by omega
      subst hj
      decide)
    (by decide) (by decide)
    (by
      intro j h1 h2
      have hj : j = 3 := by omega
      subst hj
      decide)
  simpa using h

end Conststr
